import Mathlib

/-!
Shallow embedding of the redlock-rs distributed lock manager
(src/types.rs, src/Redlock.rs, src/lib.rs).

Modelling choices:
* Machine integers (`i32`, `u64`) are modelled as `ℤ` / `ℕ`; all quantities
  appearing in the claims stay far below the overflow bounds, and the
  saturating float-to-int casts of Rust are modelled as plain truncation
  toward zero (`truncQ`), which agrees with the source on the representable
  range.
* `f32` values are modelled as the exact rationals they denote; single `f32`
  operations (literals, `i32`-to-`f32` casts, one multiplication) are
  modelled by correct rounding to 24 significant bits with round-half-to-even
  (`roundF32`), which is the IEEE-754 binary32 semantics in the normal range.
  All values reachable here (`|x| < 2^31`, `|x| > 2^-10`) are normal.
* Wall-clock readings of `time::precise_time_s` are exact rationals supplied
  by an environment `Env`; the remote Redis replies (the `SET NX PX` reply of
  `lock_instance` and the `EVAL` script reply of `unlock_instance`) are
  likewise supplied by `Env`, one per (pass, server) pair.
* `Redlock.lock` and `Redlock.unlock` additionally return the list of remote
  calls they issued (plus the sleeps they performed), so that claims about
  which fingerprint is sent to which node, and about whether nodes are
  contacted at all, can be stated.
-/

/-- Error enum from src/types.rs. -/
inductive Error where
  | CannotObtainLock
  | RedlockConn
  | NotEnoughMasters
  | InvalidLock
  | UnlockFailed
deriving DecidableEq

/-- `RedlockResult<T>` from src/types.rs. -/
abbrev RedlockResult (α : Type) := Except Error α

/-- Truncation of a rational toward zero: the Rust `as i32` / `as i64` cast of a
float value (saturation is out of the modelled range). -/
def truncQ (q : ℚ) : ℤ := if 0 ≤ q then ⌊q⌋ else ⌈q⌉

/-- Round a rational to the nearest integer, ties to even. -/
def rhe (q : ℚ) : ℤ :=
  if q - ⌊q⌋ < 1/2 then ⌊q⌋
  else if (1 : ℚ)/2 < q - ⌊q⌋ then ⌊q⌋ + 1
  else if ⌊q⌋ % 2 = 0 then ⌊q⌋ else ⌊q⌋ + 1

/-- Round a positive rational to 24 significant binary digits
(round half to even): IEEE-754 binary32 rounding in the normal range. -/
def roundF32Pos (x : ℚ) : ℚ :=
  (rhe (x / 2 ^ (Int.log 2 x - 23)) : ℚ) * 2 ^ (Int.log 2 x - 23)

/-- IEEE-754 binary32 rounding of a rational (normal range; sign-symmetric). -/
def roundF32 (x : ℚ) : ℚ :=
  if 0 < x then roundF32Pos x
  else if x < 0 then - roundF32Pos (-x)
  else 0

/-- The exact value of the `f32` literal `0.01` (the clock drift factor
written in `Redlock::dlm`, line `let cdf = 0.01;`). -/
def cdf001 : ℚ := roundF32 (1/100)

/-- The exact value of the `f32` literal `0.2` (the default retry delay
in `Redlock::dlm`). -/
def rd02 : ℚ := roundF32 (1/5)

/-- Drift computation of `Redlock::lock` line 87:
`let drift : i32 = (((ttl as f32) * self.clock_drift_factor) as i32) + 2;`.
`ttl as f32` and the `f32` multiplication round to binary32, and `as i32`
truncates toward zero. -/
def driftF32 (ttl : ℤ) (cdf : ℚ) : ℤ :=
  truncQ (roundF32 (roundF32 (ttl : ℚ) * cdf)) + 2

/-- Number of milliseconds handed to `sleep` in `Redlock::lock` line 112:
`Duration::from_millis((self.retry_delay as u64) * 1000)`.  The `as u64`
cast truncates the `f32` toward zero (negative values saturate to 0). -/
def sleepMillis (retry_delay : ℚ) : ℕ := (truncQ retry_delay).toNat * 1000

/-- Distributed lock manager struct from src/Redlock.rs.  A `Connection` is
identified by the URL it was opened from. -/
structure Redlock where
  servers : List String
  retry_count : ℤ
  retry_delay : ℚ
  quorum : ℤ
  clock_drift_factor : ℚ
deriving DecidableEq

/-- The `Lock` struct from src/Redlock.rs. -/
structure Lock where
  validity : ℤ
  resource : String
  key : String
  start_time : ℚ
deriving DecidableEq

/-- `Redlock::dlm` (src/Redlock.rs lines 42-75).  `usable u` says whether
`Client::open(u)` followed by `get_connection()` succeeds; the servers kept
are the usable URLs in order.  Note `quorum` is set to `urls.len()`, and the
construction check demands `servers.len() ≥ quorum`, i.e. that every URL was
usable. -/
def dlm (urls : List String) (usable : String → Bool)
    (retry_count : Option ℤ) (retry_delay : Option ℚ) : RedlockResult Redlock :=
  let servers := urls.filter usable
  let quorum : ℤ := urls.length
  if (servers.length : ℤ) < quorum then
    .error .NotEnoughMasters
  else
    let rc : ℤ := match retry_count with
      | some x => x
      | none => 3
    let rd : ℚ := match retry_delay with
      | some x => x
      | none => rd02
    .ok ⟨servers, rc, rd, quorum, cdf001⟩

/-- `Redlock::get_unique_id` (lines 77-81): 22 ascii characters drawn from
the thread rng, modelled as a stream of characters. -/
def get_unique_id (rng : ℕ → Char) : String :=
  String.mk ((List.range 22).map rng)

/-- Reply of the Redis `SET key val NX PX ttl` command issued by
`lock_instance`: `Ok(Value::Okay)`, `Ok(Value::Nil)`, any other `Ok` value,
or a transport error. -/
inductive SetReply where
  | okay
  | nil
  | other
  | err
deriving DecidableEq

/-- `lock_instance` (src/Redlock.rs lines 154-164): the match on the reply. -/
def lock_instance (reply : SetReply) : RedlockResult Unit :=
  match reply with
  | .okay => .ok ()
  | .nil => .error .CannotObtainLock
  | .other => .error .RedlockConn
  | .err => .error .RedlockConn

/-- Reply of the `EVAL` compare-and-delete script issued by
`unlock_instance`: an integer (1 = deleted, 0 = absent or other owner) or a
transport error. -/
inductive EvalReply where
  | int (n : ℤ)
  | err
deriving DecidableEq

/-- `unlock_instance` (src/Redlock.rs lines 141-152): the match on the reply. -/
def unlock_instance (reply : EvalReply) : RedlockResult Unit :=
  match reply with
  | .int 1 => .ok ()
  | .int 0 => .error .UnlockFailed
  | .int _ => .error .RedlockConn
  | .err => .error .RedlockConn

/-- One remote call (or sleep) performed by the manager, recorded with the
arguments the source passes. -/
inductive Call where
  | acq (pass node : ℕ) (res val : String) (ttl : ℤ)
  | rel (pass node : ℕ) (res val : String)
  | slept (ms : ℕ)
deriving DecidableEq

/-- Environment of one `lock` call: per (pass, server-index) remote replies
and the three `precise_time_s` readings of each pass (`t0` before the
acquisition loop, `t1` after it, `t2` at line 99), in seconds. -/
structure Env where
  setReply : ℕ → ℕ → SetReply
  evalReply : ℕ → ℕ → EvalReply
  t0 : ℕ → ℚ
  t1 : ℕ → ℚ
  t2 : ℕ → ℚ

/-- Bool test for a `RedlockResult` being `Ok` (`res.is_ok()`). -/
def eIsOk : RedlockResult Unit → Bool
  | .ok _ => true
  | .error _ => false

/-- Acquisition loop of one pass (lines 91-96): the count `n` of servers
whose `lock_instance` call returned `Ok`, plus the calls issued. -/
def passAcquire (env : Env) (p nServ : ℕ) (res val : String) (ttl : ℤ) :
    ℕ × List Call :=
  ((List.range nServ).countP (fun i => eIsOk (lock_instance (env.setReply p i))),
   (List.range nServ).map (fun i => .acq p i res val ttl))

/-- Cleanup loop after a failed pass (lines 104-109): release every server in
order, but return `Err(RedlockConn)` as soon as one `unlock_instance` call
errors. -/
def passCleanup (env : Env) (p : ℕ) (res val : String) :
    List ℕ → RedlockResult Unit × List Call
  | [] => (.ok (), [])
  | i :: is =>
    match unlock_instance (env.evalReply p i) with
    | .error _ => (.error .RedlockConn, [.rel p i res val])
    | .ok _ =>
      ((passCleanup env p res val is).1,
       .rel p i res val :: (passCleanup env p res val is).2)

/-- The retry loop of `Redlock::lock` (lines 88-114), with the remaining
number of retries as fuel and the current pass index `p`. -/
def lockAux (env : Env) (quorum : ℤ) (nServ : ℕ) (rd : ℚ) (res_name : String)
    (ttl drift : ℤ) (val : String) :
    ℕ → ℕ → RedlockResult Lock × List Call
  | 0, _ => (.error .CannotObtainLock, [])
  | fuel + 1, p =>
    let n := (passAcquire env p nServ res_name val ttl).1
    let atr := (passAcquire env p nServ res_name val ttl).2
    let elapsed : ℤ := truncQ (env.t1 p * 1000) - truncQ (env.t0 p * 1000)
    let validity : ℤ := ttl - elapsed - drift
    if 0 < validity ∧ quorum ≤ (n : ℤ) then
      (.ok ⟨validity, res_name, val, env.t2 p⟩, atr)
    else
      match (passCleanup env p res_name val (List.range nServ)).1 with
      | .error e => (.error e, atr ++ (passCleanup env p res_name val (List.range nServ)).2)
      | .ok _ =>
        ((lockAux env quorum nServ rd res_name ttl drift val fuel (p + 1)).1,
         atr ++ ((passCleanup env p res_name val (List.range nServ)).2 ++
           (.slept (sleepMillis rd) ::
             (lockAux env quorum nServ rd res_name ttl drift val fuel (p + 1)).2)))

/-- `Redlock::lock` (src/Redlock.rs lines 84-116). -/
def Redlock.lock (rl : Redlock) (env : Env) (rng : ℕ → Char)
    (res_name : String) (ttl : ℤ) : RedlockResult Lock × List Call :=
  let val := get_unique_id rng
  let drift := driftF32 ttl rl.clock_drift_factor
  lockAux env rl.quorum rl.servers.length rl.retry_delay res_name ttl drift val
    rl.retry_count.toNat 0

/-- Release loop of `Redlock::unlock` (lines 119-124): first
`unlock_instance` error aborts with `Err(RedlockConn)`. -/
def unlockLoop (env : ℕ → EvalReply) : List ℕ → RedlockResult Unit
  | [] => .ok ()
  | i :: is =>
    match unlock_instance (env i) with
    | .error _ => .error .RedlockConn
    | .ok _ => unlockLoop env is

/-- `Redlock::unlock` (src/Redlock.rs lines 117-126); `env i` is the reply of
server `i` to the compare-and-delete script for the resource/key of this lock. -/
def Redlock.unlock (rl : Redlock) (env : ℕ → EvalReply) (_lk : Lock) :
    RedlockResult Unit :=
  unlockLoop env (List.range rl.servers.length)

/-- `Lock::still_valid` (lines 135-138): `now` is the current
`precise_time_s` reading in seconds. -/
def Lock.still_valid (lk : Lock) (now : ℚ) : Bool :=
  decide (truncQ ((now - lk.start_time) * 1000) < lk.validity)

/-- Does this call carry the fingerprint `fp` (sleeps carry none)? -/
def callUsesVal (c : Call) (fp : String) : Bool :=
  match c with
  | .acq _ _ _ v _ => v == fp
  | .rel _ _ _ v => v == fp
  | .slept _ => true

/-- Is this trace entry a remote call (as opposed to a sleep)? -/
def isContact (c : Call) : Bool :=
  match c with
  | .slept _ => false
  | _ => true

/-- Did the compare-and-delete script of this node report `Released` (reply 1)? -/
def released (r : EvalReply) : Bool :=
  decide (r = .int 1)

/-- Fixture: a deterministic rng stream (every drawn character is `a`). -/
def rngA : ℕ → Char := fun _ => 'a'

/-- Fixture: the fingerprint `get_unique_id` produces from `rngA`. -/
def fpA : String := get_unique_id rngA

/-- Fixture: one-node manager, as `Redlock::dlm` builds it from one usable
URL with default retry count and delay. -/
def rl1 : Redlock := ⟨["u1"], 3, rd02, 1, cdf001⟩

/-- Fixture: three-node manager, as `Redlock::dlm` builds it from three
usable URLs with default retry count and delay. -/
def rl3 : Redlock := ⟨["u1", "u2", "u3"], 3, rd02, 3, cdf001⟩

/-- Fixture environment: every node acquires, every cleanup release
succeeds, and all clock readings are 0 (an instantaneous pass). -/
def envAllOk : Env :=
  ⟨fun _ _ => .okay, fun _ _ => .int 1, fun _ => 0, fun _ => 0, fun _ => 0⟩

/-- Fixture environment for the quorum claim: in every pass, nodes 0 and 1
acquire and node 2 answers `Nil` (held by someone else); cleanup releases
succeed; clocks read 0. -/
def envTwoOfThree : Env :=
  ⟨fun _ i => if i < 2 then .okay else .nil, fun _ _ => .int 1,
   fun _ => 0, fun _ => 0, fun _ => 0⟩

/-- Fixture environment for the cleanup claim: no node acquires (the
resource is held by another client), and the cleanup release finds the
value of the other owner, so the script replies 0 (`NotOwned`); clocks read 0. -/
def envContended : Env :=
  ⟨fun _ _ => .nil, fun _ _ => .int 0, fun _ => 0, fun _ => 0, fun _ => 0⟩

/-- Fixture: the lock value returned by `rl1.lock envAllOk rngA "r" 1000`
(validity 1000 - 0 - 12 = 988). -/
def lkW : Lock := ⟨988, "r", fpA, 0⟩

/-- Fixture: the lock value returned by
`rl1.lock envAllOk rngA "r" 1073744703`, whose validity
1073744703 - 0 - 10737448 = 1063007255 exceeds the spec bound
ttl - floor(ttl/100) - 2 = 1063007254. -/
def lkBig : Lock := ⟨1063007255, "r", fpA, 0⟩

/-- Fixture: four URLs of which exactly three are usable. -/
def urls4 : List String := ["u1", "u2", "u3", "u4"]

/-- Fixture: usability predicate marking `u4` unreachable. -/
def usable3 : String → Bool := fun u => decide (u ≠ "u4")

/-! Arithmetic facts about truncation and binary32 rounding. -/

theorem truncQ_zero : truncQ 0 = 0 := by
  simp [truncQ]

theorem truncQ_mono {a b : ℚ} (h : a ≤ b) : truncQ a ≤ truncQ b := by
  unfold truncQ
  by_cases ha : 0 ≤ a
  · rw [if_pos ha, if_pos (le_trans ha h)]
    exact Int.floor_le_floor h
  · rw [if_neg ha]
    by_cases hb : 0 ≤ b
    · rw [if_pos hb]
      have h1 : (⌈a⌉ : ℤ) ≤ 0 := Int.ceil_le.mpr (by exact_mod_cast le_of_not_le ha)
      have h2 : (0 : ℤ) ≤ ⌊b⌋ := Int.floor_nonneg.mpr hb
      omega
    · rw [if_neg hb]
      exact Int.ceil_le_ceil h

theorem int_le_truncQ {n : ℤ} {q : ℚ} (h : (n : ℚ) ≤ q) : n ≤ truncQ q := by
  unfold truncQ
  by_cases hq : 0 ≤ q
  · rw [if_pos hq]; exact Int.le_floor.mpr h
  · rw [if_neg hq]; exact_mod_cast h.trans (Int.le_ceil q)

theorem truncQ_of_nonneg {q : ℚ} (h : 0 ≤ q) : truncQ q = ⌊q⌋ := if_pos h

theorem le_rhe (q : ℚ) : q - 1/2 ≤ (rhe q : ℚ) := by
  have h0 : (⌊q⌋ : ℚ) ≤ q := Int.floor_le q
  have h1 : q < ⌊q⌋ + 1 := Int.lt_floor_add_one q
  unfold rhe
  by_cases hA : q - ⌊q⌋ < 1/2
  · rw [if_pos hA]; linarith
  · rw [if_neg hA]
    by_cases hB : (1:ℚ)/2 < q - ⌊q⌋
    · rw [if_pos hB]; push_cast; linarith
    · rw [if_neg hB]
      by_cases hC : ⌊q⌋ % 2 = 0
      · rw [if_pos hC]; linarith
      · rw [if_neg hC]; push_cast; linarith

theorem rhe_le (q : ℚ) : (rhe q : ℚ) ≤ q + 1/2 := by
  have h0 : (⌊q⌋ : ℚ) ≤ q := Int.floor_le q
  have h1 : q < ⌊q⌋ + 1 := Int.lt_floor_add_one q
  unfold rhe
  by_cases hA : q - ⌊q⌋ < 1/2
  · rw [if_pos hA]; linarith
  · rw [if_neg hA]
    by_cases hB : (1:ℚ)/2 < q - ⌊q⌋
    · rw [if_pos hB]; push_cast; linarith
    · rw [if_neg hB]
      by_cases hC : ⌊q⌋ % 2 = 0
      · rw [if_pos hC]; linarith
      · rw [if_neg hC]; push_cast; linarith

theorem log2_eq {x : ℚ} {e : ℤ} (h1 : (2:ℚ) ^ e ≤ x) (h2 : x < (2:ℚ) ^ (e + 1)) :
    Int.log 2 x = e := by
  have hx : 0 < x := lt_of_lt_of_le (zpow_pos (by norm_num) e) h1
  have hle : e ≤ Int.log 2 x := (Int.zpow_le_iff_le_log (by norm_num) hx).mp (by simpa using h1)
  have hlt : Int.log 2 x < e + 1 := (Int.lt_zpow_iff_log_lt (by norm_num) hx).mp (by simpa using h2)
  omega

theorem roundF32_eval {x v : ℚ} (e : ℤ) (hx : 0 < x)
    (h1 : (2:ℚ) ^ e ≤ x) (h2 : x < (2:ℚ) ^ (e + 1))
    (hv : (rhe (x / 2 ^ (e - 23)) : ℚ) * 2 ^ (e - 23) = v) :
    roundF32 x = v := by
  unfold roundF32 roundF32Pos
  rw [if_pos hx, log2_eq h1 h2, hv]

theorem cdf001_val : cdf001 = 10737418 / 2 ^ (30:ℕ) := by
  unfold cdf001
  exact roundF32_eval (-7) (by norm_num) (by norm_num) (by norm_num) (by norm_num [rhe])

theorem rd02_val : rd02 = 13421773 / 2 ^ (26:ℕ) := by
  unfold rd02
  exact roundF32_eval (-3) (by norm_num) (by norm_num) (by norm_num) (by norm_num [rhe])

theorem roundF32_zero : roundF32 0 = 0 := by
  simp [roundF32]

theorem roundF32_1000 : roundF32 ((1000:ℤ) : ℚ) = 1000 := by
  rw [show ((1000:ℤ):ℚ) = 1000 by norm_num]
  exact roundF32_eval 9 (by norm_num) (by norm_num) (by norm_num) (by norm_num [rhe])

theorem drift_1000 : driftF32 1000 cdf001 = 12 := by
  unfold driftF32
  rw [roundF32_1000, cdf001_val]
  have h2 : roundF32 ((1000 : ℚ) * (10737418 / 2 ^ (30:ℕ))) = 10 :=
    roundF32_eval 3 (by norm_num) (by norm_num) (by norm_num) (by norm_num [rhe])
  rw [h2]
  norm_num [truncQ]

theorem drift_big : driftF32 1073744703 cdf001 = 10737448 := by
  unfold driftF32
  rw [show ((1073744703:ℤ):ℚ) = 1073744703 by norm_num, cdf001_val]
  have h1 : roundF32 (1073744703 : ℚ) = 1073744640 :=
    roundF32_eval 30 (by norm_num) (by norm_num) (by norm_num) (by norm_num [rhe])
  rw [h1]
  have h2 : roundF32 ((1073744640 : ℚ) * (10737418 / 2 ^ (30:ℕ))) = 10737446 :=
    roundF32_eval 23 (by norm_num) (by norm_num) (by norm_num) (by norm_num [rhe])
  rw [h2]
  norm_num [truncQ]

theorem drift_zero : driftF32 0 cdf001 = 2 := by
  unfold driftF32
  rw [show ((0:ℤ):ℚ) = 0 by norm_num, roundF32_zero, zero_mul, roundF32_zero, truncQ_zero]
  norm_num

theorem roundF32Pos_bounds {x : ℚ} (hx : 0 < x) :
    x - x * 2 ^ (-24:ℤ) ≤ roundF32Pos x ∧ roundF32Pos x ≤ x + x * 2 ^ (-24:ℤ) := by
  unfold roundF32Pos
  have h2e : (2:ℚ) ^ (Int.log 2 x) ≤ x := by
    have h := Int.zpow_log_le_self (b := 2) (R := ℚ) (by norm_num) hx
    simpa using h
  set e := Int.log 2 x with he
  have hu : (0:ℚ) < 2 ^ (e - 23) := zpow_pos (by norm_num) _
  have hq : x / 2 ^ (e - 23) * 2 ^ (e - 23) = x := div_mul_cancel₀ x (ne_of_gt hu)
  have hup : (rhe (x / 2 ^ (e - 23)) : ℚ) * 2 ^ (e - 23) ≤
      (x / 2 ^ (e - 23) + 1/2) * 2 ^ (e - 23) :=
    mul_le_mul_of_nonneg_right (rhe_le _) hu.le
  have hlo : (x / 2 ^ (e - 23) - 1/2) * 2 ^ (e - 23) ≤
      (rhe (x / 2 ^ (e - 23)) : ℚ) * 2 ^ (e - 23) :=
    mul_le_mul_of_nonneg_right (le_rhe _) hu.le
  have hexp1 : (x / 2 ^ (e - 23) - 1/2) * 2 ^ (e - 23) = x - 1/2 * 2 ^ (e - 23) := by
    rw [sub_mul, hq]
  have hexp2 : (x / 2 ^ (e - 23) + 1/2) * 2 ^ (e - 23) = x + 1/2 * 2 ^ (e - 23) := by
    rw [add_mul, hq]
  have hhalf : (1/2 : ℚ) * 2 ^ (e - 23) ≤ x * 2 ^ (-24:ℤ) := by
    have h1 : (1/2 : ℚ) * 2 ^ (e - 23) = 2 ^ e * 2 ^ (-24:ℤ) := by
      rw [← zpow_add₀ (two_ne_zero : (2:ℚ) ≠ 0) e (-24)]
      rw [show e + (-24) = (e - 23) + (-1) by ring]
      rw [zpow_add₀ (two_ne_zero : (2:ℚ) ≠ 0) (e - 23) (-1)]
      rw [zpow_neg_one]
      ring
    rw [h1]
    exact mul_le_mul_of_nonneg_right h2e (by positivity)
  constructor
  · linarith [hlo, hexp1, hhalf]
  · linarith [hup, hexp2, hhalf]

theorem roundF32_nonpos_bounds {x : ℚ} (hx : x ≤ 0) :
    x * (1 + 2 ^ (-24:ℤ)) ≤ roundF32 x ∧ roundF32 x ≤ 0 := by
  rcases lt_or_eq_of_le hx with hlt | heq
  · unfold roundF32
    rw [if_neg (by linarith), if_pos hlt]
    have hb := roundF32Pos_bounds (x := -x) (by linarith)
    constructor
    · have h2 := hb.2
      nlinarith [h2]
    · have hd : (0:ℚ) < 1 - 2 ^ (-24:ℤ) := by norm_num
      nlinarith [hb.1, mul_pos (show (0:ℚ) < -x by linarith) hd]
  · subst heq
    rw [roundF32_zero]
    norm_num

theorem ttl_le_trunc_drift (ttl : ℤ) (httl : ttl ≤ 0) :
    ttl ≤ truncQ (roundF32 (roundF32 (ttl : ℚ) * cdf001)) := by
  have hx : ((ttl:ℚ)) ≤ 0 := by exact_mod_cast httl
  obtain ⟨hy1, hy2⟩ := roundF32_nonpos_bounds hx
  have hc0 : (0:ℚ) ≤ cdf001 := by rw [cdf001_val]; norm_num
  have hcsmall : cdf001 * (1 + 2 ^ (-24:ℤ)) * (1 + 2 ^ (-24:ℤ)) ≤ 1 := by
    rw [cdf001_val]; norm_num
  set y := roundF32 (ttl:ℚ) with hy
  have hp : y * cdf001 ≤ 0 := by nlinarith [hy2, hc0]
  obtain ⟨hz1, hz2⟩ := roundF32_nonpos_bounds hp
  set z := roundF32 (y * cdf001) with hz
  have hk1 : (0:ℚ) ≤ cdf001 * (1 + 2 ^ (-24:ℤ)) :=
    mul_nonneg hc0 (by norm_num)
  have step1 : (ttl:ℚ) * (1 + 2 ^ (-24:ℤ)) * (cdf001 * (1 + 2 ^ (-24:ℤ))) ≤
      y * (cdf001 * (1 + 2 ^ (-24:ℤ))) :=
    mul_le_mul_of_nonneg_right hy1 hk1
  have step2 : y * (cdf001 * (1 + 2 ^ (-24:ℤ))) = y * cdf001 * (1 + 2 ^ (-24:ℤ)) := by
    ring
  have step4 : (ttl:ℚ) ≤ (ttl:ℚ) * (1 + 2 ^ (-24:ℤ)) * (cdf001 * (1 + 2 ^ (-24:ℤ))) := by
    nlinarith [mul_nonneg (neg_nonneg.mpr hx) (sub_nonneg.mpr hcsmall)]
  have hfinal : (ttl:ℚ) ≤ z := by linarith [hz1, step1, step2, step4]
  exact int_le_truncQ hfinal

/-! Behaviour of the loops of `Redlock::lock` in the fixture environments,
and generic facts about them. -/

theorem lockAux_twoOfThree (rd : ℚ) (res : String) (ttl drift : ℤ) (val : String) :
    ∀ fuel p, (lockAux envTwoOfThree 3 3 rd res ttl drift val fuel p).1 =
      .error .CannotObtainLock := by
  intro fuel
  induction fuel with
  | zero => intro p; rfl
  | succ fuel ih =>
    intro p
    simp only [lockAux]
    rw [show (passAcquire envTwoOfThree p 3 res val ttl).1 = 2 from rfl,
        show (passCleanup envTwoOfThree p res val (List.range 3)).1 = Except.ok () from rfl]
    rw [if_neg (by omega)]
    exact ih (p + 1)

theorem lockAux_contended (rd : ℚ) (res : String) (ttl drift : ℤ) (val : String)
    (fuel p : ℕ) :
    (lockAux envContended 1 1 rd res ttl drift val (fuel + 1) p).1 =
      .error .RedlockConn := by
  simp only [lockAux]
  rw [show (passAcquire envContended p 1 res val ttl).1 = 0 from rfl,
      show (passCleanup envContended p res val (List.range 1)).1 =
        Except.error Error.RedlockConn from rfl]
  rw [if_neg (by omega)]

theorem lockAux_allOk_success (rd : ℚ) (res : String) (ttl drift : ℤ) (val : String)
    (h : 0 < ttl - drift) (fuel p : ℕ) :
    (lockAux envAllOk 1 1 rd res ttl drift val (fuel + 1) p).1 =
      .ok ⟨ttl - drift, res, val, 0⟩ := by
  simp only [lockAux]
  rw [show (passAcquire envAllOk p 1 res val ttl).1 = 1 from rfl]
  have ht : truncQ (envAllOk.t1 p * 1000) - truncQ (envAllOk.t0 p * 1000) = 0 := by
    simp [envAllOk, truncQ_zero]
  rw [ht]
  rw [if_pos ⟨by omega, by norm_num⟩]
  simp [envAllOk]

theorem lockAux_allOk_expired (rd : ℚ) (res : String) (ttl drift : ℤ) (val : String)
    (h : ttl - drift ≤ 0) :
    ∀ fuel p, (lockAux envAllOk 1 1 rd res ttl drift val fuel p).1 =
        .error .CannotObtainLock ∧
      ((lockAux envAllOk 1 1 rd res ttl drift val fuel p).2.countP isContact) = 2 * fuel := by
  intro fuel
  induction fuel with
  | zero => intro p; exact ⟨rfl, rfl⟩
  | succ fuel ih =>
    intro p
    simp only [lockAux]
    rw [show passAcquire envAllOk p 1 res val ttl = (1, [.acq p 0 res val ttl]) from rfl]
    have ht : truncQ (envAllOk.t1 p * 1000) - truncQ (envAllOk.t0 p * 1000) = 0 := by
      simp [envAllOk, truncQ_zero]
    rw [ht]
    rw [if_neg (by omega)]
    rw [show passCleanup envAllOk p res val (List.range 1) =
      (Except.ok (), [.rel p 0 res val]) from rfl]
    constructor
    · exact (ih (p + 1)).1
    · simp only [List.countP_cons, List.countP_append]
      rw [(ih (p + 1)).2]
      simp [isContact]
      omega

theorem passCleanup_fst (env : Env) (p : ℕ) (res val : String) :
    ∀ l : List ℕ, (passCleanup env p res val l).1 = .ok () ∨
      (passCleanup env p res val l).1 = .error .RedlockConn := by
  intro l
  induction l with
  | nil => left; rfl
  | cons i is ih =>
    simp only [passCleanup]
    cases h : unlock_instance (env.evalReply p i) with
    | error e => right; rfl
    | ok u => cases u; exact ih

theorem lockAux_ok_validity (env : Env) (quorum : ℤ) (nServ : ℕ) (rd : ℚ)
    (res : String) (ttl drift : ℤ) (val : String)
    (hmono : ∀ p, env.t0 p ≤ env.t1 p) :
    ∀ fuel p lk, (lockAux env quorum nServ rd res ttl drift val fuel p).1 = .ok lk →
      0 < lk.validity ∧ lk.validity ≤ ttl - drift := by
  intro fuel
  induction fuel with
  | zero =>
    intro p lk h
    exact absurd h (by simp [lockAux])
  | succ fuel ih =>
    intro p lk h
    simp only [lockAux] at h
    by_cases hg : 0 < ttl - (truncQ (env.t1 p * 1000) - truncQ (env.t0 p * 1000)) - drift ∧
        quorum ≤ ((passAcquire env p nServ res val ttl).1 : ℤ)
    · rw [if_pos hg] at h
      have h2 : Except.ok (⟨ttl - (truncQ (env.t1 p * 1000) - truncQ (env.t0 p * 1000)) - drift,
          res, val, env.t2 p⟩ : Lock) = Except.ok lk := h
      injection h2 with h3
      have helapsed : (0:ℤ) ≤ truncQ (env.t1 p * 1000) - truncQ (env.t0 p * 1000) :=
        sub_nonneg.mpr (truncQ_mono (mul_le_mul_of_nonneg_right (hmono p) (by norm_num)))
      have hv : lk.validity =
          ttl - (truncQ (env.t1 p * 1000) - truncQ (env.t0 p * 1000)) - drift := by
        rw [← h3]
      constructor
      · rw [hv]; exact hg.1
      · rw [hv]; omega
    · rw [if_neg hg] at h
      cases hcl : (passCleanup env p res val (List.range nServ)).1 with
      | error e =>
        rw [hcl] at h
        have h2 : (Except.error e : RedlockResult Lock) = Except.ok lk := h
        cases h2
      | ok u =>
        rw [hcl] at h
        exact ih (p + 1) lk h

theorem lockAux_nosuccess (env : Env) (quorum : ℤ) (nServ : ℕ) (rd : ℚ)
    (res : String) (ttl drift : ℤ) (val : String)
    (hval : ∀ p, ttl - (truncQ (env.t1 p * 1000) - truncQ (env.t0 p * 1000)) - drift ≤ 0) :
    ∀ fuel p, (lockAux env quorum nServ rd res ttl drift val fuel p).1 =
        .error .CannotObtainLock ∨
      (lockAux env quorum nServ rd res ttl drift val fuel p).1 = .error .RedlockConn := by
  intro fuel
  induction fuel with
  | zero => intro p; left; rfl
  | succ fuel ih =>
    intro p
    simp only [lockAux]
    rw [if_neg (by have := hval p; omega)]
    rcases passCleanup_fst env p res val (List.range nServ) with hok | herr
    · rw [hok]
      exact ih (p + 1)
    · rw [herr]
      right
      rfl

theorem passAcquire_trace_val (env : Env) (p nServ : ℕ) (res val : String) (ttl : ℤ)
    (c : Call) (hc : c ∈ (passAcquire env p nServ res val ttl).2) :
    callUsesVal c val = true := by
  simp only [passAcquire, List.mem_map] at hc
  obtain ⟨i, _, rfl⟩ := hc
  simp [callUsesVal]

theorem passCleanup_trace_val (env : Env) (p : ℕ) (res val : String) :
    ∀ (l : List ℕ) (c : Call), c ∈ (passCleanup env p res val l).2 →
      callUsesVal c val = true := by
  intro l
  induction l with
  | nil => intro c hc; simp [passCleanup] at hc
  | cons i is ih =>
    intro c hc
    simp only [passCleanup] at hc
    cases h : unlock_instance (env.evalReply p i) with
    | error e =>
      rw [h] at hc
      simp at hc
      subst hc
      simp [callUsesVal]
    | ok u =>
      rw [h] at hc
      simp at hc
      rcases hc with rfl | hc
      · simp [callUsesVal]
      · exact ih c hc

theorem lockAux_trace_val (env : Env) (quorum : ℤ) (nServ : ℕ) (rd : ℚ)
    (res : String) (ttl drift : ℤ) (val : String) :
    ∀ fuel p c, c ∈ (lockAux env quorum nServ rd res ttl drift val fuel p).2 →
      callUsesVal c val = true := by
  intro fuel
  induction fuel with
  | zero => intro p c hc; simp [lockAux] at hc
  | succ fuel ih =>
    intro p c hc
    simp only [lockAux] at hc
    by_cases hg : 0 < ttl - (truncQ (env.t1 p * 1000) - truncQ (env.t0 p * 1000)) - drift ∧
        quorum ≤ ((passAcquire env p nServ res val ttl).1 : ℤ)
    · rw [if_pos hg] at hc
      exact passAcquire_trace_val env p nServ res val ttl c hc
    · rw [if_neg hg] at hc
      cases hcl : (passCleanup env p res val (List.range nServ)).1 with
      | error e =>
        rw [hcl] at hc
        have hc2 : c ∈ (passAcquire env p nServ res val ttl).2 ++
            (passCleanup env p res val (List.range nServ)).2 := hc
        rcases List.mem_append.mp hc2 with h1 | h2
        · exact passAcquire_trace_val env p nServ res val ttl c h1
        · exact passCleanup_trace_val env p res val (List.range nServ) c h2
      | ok u =>
        rw [hcl] at hc
        have hc2 : c ∈ (passAcquire env p nServ res val ttl).2 ++
            ((passCleanup env p res val (List.range nServ)).2 ++
              (Call.slept (sleepMillis rd) ::
                (lockAux env quorum nServ rd res ttl drift val fuel (p + 1)).2)) := hc
        rcases List.mem_append.mp hc2 with h1 | h2
        · exact passAcquire_trace_val env p nServ res val ttl c h1
        · rcases List.mem_append.mp h2 with h3 | h4
          · exact passCleanup_trace_val env p res val (List.range nServ) c h3
          · rcases List.mem_cons.mp h4 with rfl | h5
            · simp [callUsesVal]
            · exact ih (p + 1) c h5

theorem unlock_instance_ok_iff (r : EvalReply) :
    unlock_instance r = .ok () ↔ r = .int 1 := by
  constructor
  · intro h
    unfold unlock_instance at h
    split at h <;> simp_all
  · rintro rfl
    rfl

theorem unlockLoop_eq (env : ℕ → EvalReply) :
    ∀ l : List ℕ, unlockLoop env l =
      (if l.all (fun i => released (env i)) then (.ok () : RedlockResult Unit)
       else .error .RedlockConn) := by
  intro l
  induction l with
  | nil => rfl
  | cons i is ih =>
    simp only [unlockLoop]
    cases h : unlock_instance (env i) with
    | error e =>
      have hrel : released (env i) = false := by
        unfold released
        simp only [decide_eq_false_iff_not]
        intro hr
        rw [hr] at h
        simp [unlock_instance] at h
      simp [List.all_cons, hrel]
    | ok u =>
      cases u
      have hrel : released (env i) = true := by
        unfold released
        simp only [decide_eq_true_eq]
        exact (unlock_instance_ok_iff (env i)).mp h
      simp only [List.all_cons, hrel, Bool.true_and]
      exact ih

/-! Claim theorems. -/

/-- C1: the spec says the quorum deciding an acquisition pass is
Q = floor(N/2)+1, so a pass with n Acquired results, n at least Q, and
positive validity must return a lock.  The code instead sets
`quorum = urls.len() = N` in `Redlock::dlm` and tests `n >= self.quorum`
in `Redlock::lock`, so for a three-node manager a pass in which exactly two
nodes answer Okay (n = 2 = floor(3/2)+1, validity 1000 - 0 - 12 = 988 > 0)
fails every retry and `lock` returns `CannotObtainLock`.  This theorem
evaluates the embedded code at that failing input: the claim (and the
Redlock algorithm the crate documents itself as implementing) is right and
the code is wrong. -/
theorem lock_requires_all_not_majority :
    (rl3.lock envTwoOfThree rngA ("r") 1000).1 = .error .CannotObtainLock ∧
    (passAcquire envTwoOfThree 0 3 ("r") fpA 1000).1 = 2 ∧
    (3:ℤ)/2 + 1 ≤ 2 ∧
    0 < 1000 - 0 - driftF32 1000 cdf001 := by
  refine ⟨?_, rfl, by norm_num, by rw [drift_1000]; norm_num⟩
  show (lockAux envTwoOfThree 3 3 rd02 ("r") 1000
    (driftF32 1000 rl3.clock_drift_factor) fpA 3 0).1 = _
  exact lockAux_twoOfThree rd02 ("r") 1000 _ fpA 3 0

/-- C2: the spec says cleanup releases between passes are best-effort and a
NotOwned or TransportError outcome must never surface as anything but
CannotObtain.  In the code, `unlock_instance` maps the script reply 0
(NotOwned) to `Err(UnlockFailed)` and `Redlock::lock` line 107 turns any
cleanup release error into an immediate `return Err(Error::RedlockConn)`.
This theorem evaluates the embedded code at the failing input: a one-node
manager whose pass fails under contention (SET NX returns Nil) and whose
cleanup release finds the value of the other owner (script reply 0); `lock`
returns `RedlockConn` - an error other than CannotObtain - from the first
pass, never retrying.  The claim is right and the code is wrong. -/
theorem lock_escalates_cleanup_failure :
    (rl1.lock envContended rngA ("r") 1000).1 = .error .RedlockConn ∧
    Error.RedlockConn ≠ Error.CannotObtainLock := by
  refine ⟨?_, by decide⟩
  show (lockAux envContended 1 1 rd02 ("r") 1000
    (driftF32 1000 rl1.clock_drift_factor) fpA 3 0).1 = _
  exact lockAux_contended rd02 ("r") 1000 _ fpA 2 0

/-- C3 counterexample: the claim says `Redlock.unlock` succeeds whenever
every node returned Released or NotOwned.  Against a one-node manager whose
node answers NotOwned (script reply 0, the idempotent-replay situation),
`unlock` returns `Err(RedlockConn)`, not success, because `unlock_instance`
maps reply 0 to `Err(UnlockFailed)`. -/
theorem unlock_fails_when_all_not_owned :
    rl1.unlock (fun _ => .int 0) lkW = .error .RedlockConn ∧
    unlock_instance (.int 0) = .error .UnlockFailed :=
  ⟨rfl, rfl⟩

/-- C3 amended: `Redlock.unlock` succeeds iff the compare-and-delete script
of every node replied 1 (Released); any NotOwned (reply 0) or
transport-error outcome makes it return `Err(RedlockConn)`.  Release is
therefore not idempotent: a replay on which every node observes NotOwned
returns an error. -/
theorem unlock_ok_iff_all_released (rl : Redlock) (env : ℕ → EvalReply) (lk : Lock) :
    rl.unlock env lk =
      (if (List.range rl.servers.length).all (fun i => released (env i)) then
        (.ok () : RedlockResult Unit)
       else .error .RedlockConn) :=
  unlockLoop_eq env (List.range rl.servers.length)

/-- C4 counterexample: the claim says construction fails with
NotEnoughMasters iff fewer than ceil(N/2)+1 endpoints are usable.  With
N = 4 URLs of which 3 are usable - at least ceil(4/2)+1 = 3, so the claim
predicts success - `Redlock::dlm` nevertheless returns
`Err(NotEnoughMasters)`, because it demands all N. -/
theorem dlm_rejects_majority_of_four :
    dlm urls4 usable3 none none = .error .NotEnoughMasters ∧
    (urls4.length + 1) / 2 + 1 ≤ (urls4.filter usable3).length :=
  ⟨rfl, by decide⟩

/-- C4 amended: `Redlock::dlm` fails with NotEnoughMasters iff fewer than N
of the N given endpoints yielded a usable adapter, i.e. construction
requires every endpoint to be usable (the strict historical rule the spec
itself mentions); otherwise it succeeds. -/
theorem dlm_fails_iff_any_unusable (urls : List String) (usable : String → Bool)
    (rc : Option ℤ) (rd : Option ℚ) :
    dlm urls usable rc rd = .error .NotEnoughMasters ↔
      (urls.filter usable).length < urls.length := by
  unfold dlm
  by_cases h : ((urls.filter usable).length : ℤ) < (urls.length : ℤ)
  · rw [if_pos h]
    exact iff_of_true rfl (by exact_mod_cast h)
  · rw [if_neg h]
    exact iff_of_false (by simp) (fun hc => h (by exact_mod_cast hc))

/-- C5 counterexample: the claim bounds the returned validity by
ttl - floor(ttl * F) - 2 with F = 0.01.  At ttl = 1073744703 with an
instantaneous pass, the f32 drift computation of line 87 rounds
(1073744703 as f32) to 1073744640 and the product down to 10737446, one
below floor(1073744703/100) = 10737447, so the returned validity
1063007255 exceeds the claimed bound 1063007254 by one. -/
theorem lock_validity_above_spec_bound :
    (rl1.lock envAllOk rngA ("r") 1073744703).1 = .ok lkBig ∧
    1073744703 - ⌊(1073744703 : ℚ) / 100⌋ - 2 < lkBig.validity := by
  constructor
  · show (lockAux envAllOk 1 1 rd02 ("r") 1073744703
      (driftF32 1073744703 rl1.clock_drift_factor) fpA 3 0).1 = _
    rw [show rl1.clock_drift_factor = cdf001 from rfl, drift_big]
    rw [lockAux_allOk_success rd02 ("r") 1073744703 10737448 fpA (by norm_num) 2 0]
    norm_num [lkBig]
  · norm_num [lkBig]

/-- C5 amended: for every successful `Redlock.lock` call under a monotone
clock, the returned validity is positive and bounded by ttl minus the drift
the code computes, namely trunc_f32((ttl as f32) * clock_drift_factor) + 2
in binary32 arithmetic (which can be one below floor(ttl * F) + 2). -/
theorem lock_validity_bounds (rl : Redlock) (env : Env) (rng : ℕ → Char)
    (res : String) (ttl : ℤ) (lk : Lock)
    (hmono : ∀ p, env.t0 p ≤ env.t1 p)
    (hok : (rl.lock env rng res ttl).1 = .ok lk) :
    0 < lk.validity ∧ lk.validity ≤ ttl - driftF32 ttl rl.clock_drift_factor :=
  lockAux_ok_validity env rl.quorum rl.servers.length rl.retry_delay res ttl
    (driftF32 ttl rl.clock_drift_factor) (get_unique_id rng) hmono
    rl.retry_count.toNat 0 lk hok

/-- C5 witness: the amended bound instantiated on a concrete successful
run, ttl = 1000 against a one-node manager with an instantaneous pass,
which returns validity 988 = 1000 - 12. -/
theorem lock_validity_bounds_witness :
    0 < lkW.validity ∧ lkW.validity ≤ 1000 - driftF32 1000 cdf001 :=
  lock_validity_bounds rl1 envAllOk rngA ("r") 1000 lkW (fun _ => le_refl 0)
    (by
      show (lockAux envAllOk 1 1 rd02 ("r") 1000
        (driftF32 1000 rl1.clock_drift_factor) fpA 3 0).1 = _
      rw [show rl1.clock_drift_factor = cdf001 from rfl, drift_1000]
      rw [lockAux_allOk_success rd02 ("r") 1000 12 fpA (by norm_num) 2 0]
      norm_num [lkW])

/-- C6 counterexample: the claim says `Redlock::dlm` errors on the empty
URL list.  It does not: with zero URLs the check `servers.len() < quorum`
is 0 < 0 and fails, so construction succeeds and yields a manager with an
empty server list and quorum 0. -/
theorem dlm_empty_urls_constructs :
    dlm ([] : List String) (fun _ => true) none none = .ok ⟨[], 3, rd02, 0, cdf001⟩ :=
  rfl

/-- C6 amended: a manager with zero node adapters IS constructible: for the
empty URL list, `Redlock::dlm` always returns Ok, and the returned manager
has an empty server list. -/
theorem dlm_empty_gives_zero_servers (usable : String → Bool)
    (rc : Option ℤ) (rd : Option ℚ) :
    ∃ rl : Redlock, dlm [] usable rc rd = .ok rl ∧ rl.servers = [] := by
  cases rc <;> cases rd <;> exact ⟨_, rfl, rfl⟩

/-- C7: the spec defines the retry delay D in seconds and requires the
sleep between passes to be D * 1000 milliseconds (200 ms for the default
D = 0.2); it explicitly treats the source behaviour as a defect.  The code
computes `(self.retry_delay as u64) * 1000`, and the `as u64` cast
truncates the f32 0.2 to 0, so the duration handed to `sleep` is 0 ms, not
200 ms.  This theorem evaluates the sleep expression of line 112 at the
default delay: the claim describes the intent and the code is wrong. -/
theorem sleep_millis_for_default_delay : sleepMillis rd02 = 0 := by
  unfold sleepMillis
  rw [rd02_val]
  norm_num [truncQ]

/-- C8 counterexample: the claim says `Redlock.lock` with ttl <= 0 or an
empty resource name fails with InvalidArgument without contacting any node.
The code has no InvalidArgument variant and no validation: called with
ttl = 0 and the empty resource name against a one-node manager, it issues
six remote calls (three SET NX attempts and three cleanup releases) and
returns `CannotObtainLock`. -/
theorem lock_ttl_zero_contacts_nodes :
    (rl1.lock envAllOk rngA ("") 0).1 = .error .CannotObtainLock ∧
    ((rl1.lock envAllOk rngA ("") 0).2.countP isContact) = 6 :=
  lockAux_allOk_expired rd02 ("") 0 (driftF32 0 rl1.clock_drift_factor) fpA
    (by rw [show rl1.clock_drift_factor = cdf001 from rfl, drift_zero]; norm_num) 3 0

/-- C8 amended: `Redlock.lock` performs no argument validation (the error
enum has no InvalidArgument variant); for ttl <= 0, under a monotone clock,
every pass computes a negative validity, so the call never succeeds: it
returns CannotObtainLock after exhausting its retries, or RedlockConn if a
cleanup release fails on the way. -/
theorem lock_accepts_any_args (rl : Redlock) (env : Env) (rng : ℕ → Char)
    (res : String) (ttl : ℤ)
    (httl : ttl ≤ 0) (hcdf : rl.clock_drift_factor = cdf001)
    (hmono : ∀ p, env.t0 p ≤ env.t1 p) :
    (rl.lock env rng res ttl).1 = .error .CannotObtainLock ∨
    (rl.lock env rng res ttl).1 = .error .RedlockConn := by
  have hval : ∀ p, ttl - (truncQ (env.t1 p * 1000) - truncQ (env.t0 p * 1000)) -
      driftF32 ttl rl.clock_drift_factor ≤ 0 := by
    intro p
    have h1 : (0:ℤ) ≤ truncQ (env.t1 p * 1000) - truncQ (env.t0 p * 1000) :=
      sub_nonneg.mpr (truncQ_mono (mul_le_mul_of_nonneg_right (hmono p) (by norm_num)))
    have h2 : ttl ≤ truncQ (roundF32 (roundF32 (ttl:ℚ) * cdf001)) :=
      ttl_le_trunc_drift ttl httl
    rw [hcdf]
    unfold driftF32
    omega
  exact lockAux_nosuccess env rl.quorum rl.servers.length rl.retry_delay res ttl
    (driftF32 ttl rl.clock_drift_factor) (get_unique_id rng) hval rl.retry_count.toNat 0

/-- C8 witness: the amended statement instantiated at ttl = 0 on a
one-node manager with an always-zero clock. -/
theorem lock_accepts_any_args_witness :
    (rl1.lock envAllOk rngA ("") 0).1 = .error .CannotObtainLock ∨
    (rl1.lock envAllOk rngA ("") 0).1 = .error .RedlockConn :=
  lock_accepts_any_args rl1 envAllOk rngA ("") 0 (le_refl 0) rfl (fun _ => le_refl 0)

/-- C9: `Lock::still_valid` returns true iff the wall-clock time elapsed
since the lock was acquired, expressed in milliseconds, is strictly below
the validity of the handle.  The code truncates the elapsed milliseconds to
an integer before comparing, but for a nonnegative elapsed time and an
integral right-hand side the truncated comparison agrees with the exact
one, so the claim holds whenever the clock has not gone backwards. -/
theorem still_valid_iff (lk : Lock) (now : ℚ) (h : lk.start_time ≤ now) :
    lk.still_valid now = true ↔ (now - lk.start_time) * 1000 < (lk.validity : ℚ) := by
  unfold Lock.still_valid
  rw [decide_eq_true_eq]
  have he : 0 ≤ (now - lk.start_time) * 1000 :=
    mul_nonneg (sub_nonneg.mpr h) (by norm_num)
  rw [truncQ_of_nonneg he]
  exact Int.floor_lt

/-- C9 witness: a handle with validity 1000 ms queried half a second after
acquisition is still valid. -/
theorem still_valid_iff_witness :
    Lock.still_valid ⟨1000, ("r"), ("k"), 0⟩ (1/2) = true :=
  (still_valid_iff ⟨1000, ("r"), ("k"), 0⟩ (1/2) (by norm_num)).mpr (by norm_num)

/-- C10: within one `Redlock.lock` call the fingerprint is generated once,
before the first pass (`let val = self.get_unique_id();`), and every remote
call the manager issues - every per-node SET NX attempt and every cleanup
release, across all retry passes - carries that same value, a string of
exactly 22 characters. -/
theorem lock_fingerprint_once (rl : Redlock) (env : Env) (rng : ℕ → Char)
    (res : String) (ttl : ℤ) :
    ((rl.lock env rng res ttl).2.all fun c => callUsesVal c (get_unique_id rng)) = true ∧
    (get_unique_id rng).length = 22 := by
  constructor
  · rw [List.all_eq_true]
    intro c hc
    exact lockAux_trace_val env rl.quorum rl.servers.length rl.retry_delay res ttl
      (driftF32 ttl rl.clock_drift_factor) (get_unique_id rng) rl.retry_count.toNat 0 c hc
  · rfl
